import Mathlib

/-!
Verification of the class_cli command framework (yoavhayun/cli).

The definitions below are a shallow embedding of the repository sources:
  * src/class_cli/_cli_methods.py   (Method, CLI_Methods and the decorators)
  * src/class_cli/_cli_parser.py    (IterableOptions, DictOptions, _create_method_parser)
  * src/class_cli/_cli_session.py   (cli_session.__runArgs)
  * src/_cli_prompt.py              (format_extra_arguments, StatusBar._validate)
Python callables are modeled as Lean functions returning Except (raising = error),
Python dicts as insertion-ordered association lists, and inspect.getfullargspec
results as the ArgSpec structure.
-/

/-- PyObj models the Python values the framework stores and compares with ==
(default values, annotation values, setting values). Only equality is used. -/
inductive PyObj where
  | int (i : Int)
  | str (s : String)
  | bool (b : Bool)
  | pyNone
deriving DecidableEq, Repr

/-- CliError models the exception taxonomy of src/class_cli/_cli_exception.py:
CompilationException, InitializationException, InputException, InternalException. -/
inductive CliError where
  | compilation (msg : String)
  | initialization (msg : String)
  | input (msg : String)
  | internal (msg : String)
deriving DecidableEq, Repr

/-- ArgSpec models an inspect.getfullargspec result as consumed by
Method.__check_preconditions in src/class_cli/_cli_methods.py: the positional
parameter names (self included), the tuple of default values (None when the
function has no defaults), the __annotations__ mapping in insertion order, and
the optional variadic-positional / variadic-keyword names. -/
structure ArgSpec where
  args : List String
  defaults : Option (List PyObj)
  annotations : List (String × PyObj)
  varargs : Option String
  varkw : Option String
deriving DecidableEq, Repr

/-- compareSpecAttr models compare_specs in Method.__check_preconditions
(src/class_cli/_cli_methods.py lines 53-66): if either side of an attribute is
None, both must be; otherwise the extracted lists must have equal length and
equal elements. The first argument triple feeds the error messages. -/
def compareSpecAttr {β : Type} [DecidableEq β] (mtype mname attrName : String) :
    Option (List β) → Option (List β) → Except CliError Unit
  | Option.none, Option.none => Except.ok ()
  | Option.none, some _ =>
      Except.error (CliError.initialization (mtype ++ " \x27" ++ mname ++
        "\x27 has validation with \x27" ++ attrName ++ "\x27 signature not matching its operation"))
  | some _, Option.none =>
      Except.error (CliError.initialization (mtype ++ " \x27" ++ mname ++
        "\x27 has validation with \x27" ++ attrName ++ "\x27 signature not matching its operation"))
  | some l1, some l2 =>
      if l1.length ≠ l2.length then
        Except.error (CliError.initialization (mtype ++ " \x27" ++ mname ++
          "\x27 has validation with \x27" ++ attrName ++ "\x27 signature not matching its operation"))
      else if l1 ≠ l2 then
        Except.error (CliError.initialization (mtype ++ " \x27" ++ mname ++
          "\x27 has validation with non matching \x27" ++ attrName ++ "\x27"))
      else Except.ok ()

/-- exceptThen sequences two checks the way a Python statement sequence does:
the first raised exception aborts, otherwise the second check decides. -/
def exceptThen {ε : Type} (x y : Except ε Unit) : Except ε Unit :=
  match x with
  | Except.error e => Except.error e
  | Except.ok _ => y

/-- specCompare models the attribute loop of Method.__check_preconditions
(src/class_cli/_cli_methods.py lines 72-80): the attributes args, defaults,
annotations, varargs and varkw are compared in that order; the annotations
extractor is [x[k] for k in x], i.e. the list of annotation values only, and
the variadic names are compared as character sequences. -/
def specCompare (mtype mname : String) (spec vspec : ArgSpec) : Except CliError Unit :=
  exceptThen (compareSpecAttr mtype mname "args" (some spec.args) (some vspec.args))
    (exceptThen (compareSpecAttr mtype mname "defaults" spec.defaults vspec.defaults)
      (exceptThen (compareSpecAttr mtype mname "annotations"
          (some (spec.annotations.map Prod.snd)) (some (vspec.annotations.map Prod.snd)))
        (exceptThen (compareSpecAttr mtype mname "varargs"
            (spec.varargs.map String.data) (vspec.varargs.map String.data))
          (compareSpecAttr mtype mname "varkw"
            (spec.varkw.map String.data) (vspec.varkw.map String.data)))))

/-- checkValidationSpecs models the validation loop of Method.__check_preconditions
(src/class_cli/_cli_methods.py lines 69-80): every registered validation spec is
compared against the execution spec, first mismatch raising. -/
def checkValidationSpecs (mtype mname : String) (spec : ArgSpec) :
    List ArgSpec → Except CliError Unit
  | [] => Except.ok ()
  | v :: rest =>
      exceptThen (specCompare mtype mname spec v)
        (checkValidationSpecs mtype mname spec rest)

/-- checkPreconditions models Method.__check_preconditions
(src/class_cli/_cli_methods.py lines 45-80): a missing execution raises
InitializationException, otherwise each validation signature is compared to the
execution signature.  This runs at the first compile for an instance, i.e. at
instance construction. -/
def checkPreconditions (mtype mname : String) (execution : Option ArgSpec)
    (validations : List ArgSpec) : Except CliError Unit :=
  match execution with
  | Option.none => Except.error (CliError.initialization
      ("method \x27" ++ mname ++ "\x27 has declared validation but did not found an implementation"))
  | some spec => checkValidationSpecs mtype mname spec validations

/-- MethodReg models the registration-phase state of the Method class in
src/class_cli/_cli_methods.py: at most one execution, a type tag and the
validation list in registration order. -/
structure MethodReg where
  name : String
  execution : Option ArgSpec
  mtype : String
  validations : List ArgSpec
deriving DecidableEq, Repr

/-- methodMk models Method.__init__ (src/class_cli/_cli_methods.py lines 20-24). -/
def methodMk (name : String) : MethodReg :=
  { name := name, execution := Option.none, mtype := "Method", validations := [] }

/-- setExecution models Method.setExecution (src/class_cli/_cli_methods.py lines
29-36): a second execution raises CompilationException at declaration time;
no signature checks happen here. -/
def setExecution (m : MethodReg) (exec : ArgSpec) (mtype : String) : Except CliError MethodReg :=
  match m.execution with
  | some _ => Except.error (CliError.compilation "A Method can only have 1 execution implementation")
  | Option.none => Except.ok { m with execution := some exec, mtype := mtype }

/-- addValidation models Method.addValidation (src/class_cli/_cli_methods.py
lines 38-43).  The Python code deduplicates on function-object identity; two
distinct declarations are distinct objects, so registration appends.  No
signature checks happen here. -/
def addValidation (m : MethodReg) (vspec : ArgSpec) : MethodReg :=
  { m with validations := m.validations ++ [vspec] }

/-- declareMethod models the decorator phase for one command with one execution
and one validation: registration succeeds with no cross-signature check. -/
def declareMethod (mname mtype : String) (exec vspec : ArgSpec) : Except CliError MethodReg := do
  let m ← setExecution (methodMk mname) exec mtype
  Except.ok (addValidation m vspec)

/-- CallEvent records which implementation parts actually run during one
invocation of a compiled command: the i-th registered validation, or the
execution body. -/
inductive CallEvent where
  | validationRun (i : Nat)
  | executionRun
deriving DecidableEq, Repr

/-- methodInvokeAux models the compiled wrapper built by Method._compile
(src/class_cli/_cli_methods.py lines 89-97): each validation is applied in
registration order to the same arguments; the first error propagates unmodified
and stops everything after it; if all pass, the execution runs once and its
result is returned.  The first component is the trace of parts that ran. -/
def methodInvokeAux {α ε ρ : Type} (i : Nat) (validations : List (α → Except ε Unit))
    (execution : α → Except ε ρ) (a : α) : List CallEvent × Except ε ρ :=
  match validations with
  | [] => ([CallEvent.executionRun], execution a)
  | v :: rest =>
    match v a with
    | Except.error e => ([CallEvent.validationRun i], Except.error e)
    | Except.ok _ =>
      let r := methodInvokeAux (i + 1) rest execution a
      (CallEvent.validationRun i :: r.1, r.2)

/-- methodInvoke models one invocation of the compiled command, tracing which
parts ran. -/
def methodInvoke {α ε ρ : Type} (validations : List (α → Except ε Unit))
    (execution : α → Except ε ρ) (a : α) : List CallEvent × Except ε ρ :=
  methodInvokeAux 0 validations execution a

/-- runMethod is the result of one invocation of the compiled command, the
trace forgotten: exactly the value of the wrapper method(*args, **kwargs). -/
def runMethod {α ε ρ : Type} (validations : List (α → Except ε Unit))
    (execution : α → Except ε ρ) (a : α) : Except ε ρ :=
  (methodInvoke validations execution a).2

/-- dictInsert models a Python dict assignment d[key] = v on an
insertion-ordered association list with distinct keys: an existing key keeps
its position and takes the new value, a new key is appended. -/
def dictInsert {β : Type} : List (String × β) → String → β → List (String × β)
  | [], k, v => [(k, v)]
  | p :: d, k, v => if p.1 == k then (p.1, v) :: d else p :: dictInsert d k v

/-- dictLookup models a Python dict read d[key] on the association-list
representation. -/
def dictLookup {β : Type} : List (String × β) → String → Option β
  | [], _ => Option.none
  | p :: d, k => if p.1 == k then some p.2 else dictLookup d k

/-- pyDict models a Python dict comprehension over a list of key-value pairs:
pairs are inserted left to right, so the last occurrence of a duplicate key
wins while keeping first-occurrence position. -/
def pyDict {β : Type} (ps : List (String × β)) : List (String × β) :=
  ps.foldl (fun d p => dictInsert d p.1 p.2) []

/-- splitEqChars models Python str.split(sep) for a one-character separator,
on the character list: every occurrence of the separator splits, empty pieces
included. -/
def splitEqChars (sep : Char) : List Char → List (List Char)
  | [] => [[]]
  | c :: cs =>
    if c = sep then [] :: splitEqChars sep cs
    else
      match splitEqChars sep cs with
      | [] => [[c]]
      | g :: gs => (c :: g) :: gs

/-- pySplitEq models the Python expression e.split before bucket selection in
format_extra_arguments: token.split on the equals sign. -/
def pySplitEq (s : String) : List String :=
  (splitEqChars '=' s.data).map String.mk

/-- format_extra_arguments models _cli_prompt.format_extra_arguments
(src/_cli_prompt.py lines 59-72): non-empty varargs tokens and varkw tokens are
combined; with a varkw bucket present every combined token is split on the
equals sign, one-part tokens land in the positional list and two-part tokens in
the keyword dict (last duplicate key wins); with no varkw bucket every token is
positional.  Tokens splitting into three or more parts land in neither bucket. -/
def format_extra_arguments (varargs : Option (List String)) (varkw : Option (List String)) :
    List String × List (String × String) :=
  let extras : List String :=
    match varargs with
    | some vs => vs.filter (fun v => v ≠ "")
    | Option.none => []
  match varkw with
  | some kw =>
    let pieces := ((extras ++ kw).filter (fun e => e ≠ "")).map pySplitEq
    (pieces.filterMap (fun e => match e with | [x] => some x | _ => Option.none),
     pyDict (pieces.filterMap (fun e => match e with | [k, v] => some (k, v) | _ => Option.none)))
  | Option.none =>
    let pieces := extras.map (fun e => [e])
    (pieces.filterMap (fun e => match e with | [x] => some x | _ => Option.none),
     pyDict (pieces.filterMap (fun e => match e with | [k, v] => some (k, v) | _ => Option.none)))

/-- parseRequiredPositionals models the argparse parser built by
_create_method_parser (src/class_cli/_cli_parser.py lines 162-173) for a method
with k required positional parameters, no defaults and no variadic forms, on
plain value tokens (tokens beginning with a dash engage the flag machinery and
are outside this model): fewer tokens than parameters or surplus tokens make
argparse exit, which cli_session.__runArgs (src/class_cli/_cli_session.py lines
124-133) surfaces as an InputException. -/
def parseRequiredPositionals : Nat → List String → Except CliError (List String)
  | 0, [] => Except.ok []
  | 0, _ :: _ => Except.error (CliError.input "unrecognized arguments")
  | _ + 1, [] => Except.error (CliError.input "the following arguments are required")
  | k + 1, t :: ts =>
    match parseRequiredPositionals k ts with
    | Except.error e => Except.error e
    | Except.ok vs => Except.ok (t :: vs)

/-- iterFind models IterableOptions.find (src/class_cli/_cli_parser.py lines
84-87): the first member whose textual form equals the key, None otherwise.
The textual form str is abstracted as strFn. -/
def iterFind {κ : Type} (strFn : κ → String) (options : List κ) (key : String) : Option κ :=
  options.find? (fun o => strFn o == key)

/-- iterCall models IterableOptions.__call__ (src/class_cli/_cli_parser.py
lines 76-79): a key whose text matches no member raises TypeError, otherwise
the find result (an Option, as in the source, where find may return None) is
returned. -/
def iterCall {κ : Type} (strFn : κ → String) (options : List κ) (key : String) :
    Except String (Option κ) :=
  if (options.map (fun o => strFn o)).contains key then Except.ok (iterFind strFn options key)
  else Except.error ("\x27" ++ key ++ "\x27 is not a valid option")

/-- pyLower models Python str.lower character by character. -/
def pyLower (s : String) : String := String.mk (s.data.map Char.toLower)

/-- pyStartsWith models Python s.startswith(pre). -/
def pyStartsWith (s pre : String) : Bool := pre.data.isPrefixOf s.data

/-- iterComplete models IterableOptions.__complete__ (src/class_cli/_cli_parser.py
line 81-82): the textual forms of all members starting, case-insensitively,
with the typed prefix. -/
def iterComplete {κ : Type} (strFn : κ → String) (options : List κ) (key : String) :
    List String :=
  (options.filter (fun o => pyStartsWith (pyLower (strFn o)) (pyLower key))).map
    (fun o => strFn o)

/-- dictFind models IterableOptions.find as inherited by DictOptions: iterating
a Python dict iterates its keys, so the first entry whose key text matches is
found. -/
def dictFind {κ α : Type} (strFn : κ → String) (options : List (κ × α)) (key : String) :
    Option (κ × α) :=
  options.find? (fun o => strFn o.1 == key)

/-- dictCall models DictOptions.__call__, i.e. IterableOptions.__call__ with
DictOptions.__getitem__ (src/class_cli/_cli_parser.py lines 76-79 and 105-106):
an unmatched key text raises the not-a-valid-option TypeError; otherwise the
entry with matching key text supplies the mapped value.  The KeyError branch is
unreachable under the membership guard. -/
def dictCall {κ α : Type} (strFn : κ → String) (options : List (κ × α)) (key : String) :
    Except String α :=
  if (options.map (fun o => strFn o.1)).contains key then
    match dictFind strFn options key with
    | some o => Except.ok o.2
    | Option.none => Except.error "KeyError"
  else Except.error ("\x27" ++ key ++ "\x27 is not a valid option")

/-- dictComplete models IterableOptions.__complete__ on a DictOptions value:
iterating the dict iterates its keys. -/
def dictComplete {κ α : Type} (strFn : κ → String) (options : List (κ × α)) (key : String) :
    List String :=
  (options.filter (fun o => pyStartsWith (pyLower (strFn o.1)) (pyLower key))).map
    (fun o => strFn o.1)

/-- settingInvoke models the setting wrapper built by CLI_Methods._compile
(src/class_cli/_cli_methods.py lines 146-155): the compiled method (validations
plus execution) runs; on success the result is stored under the setting name
only when updates_value is true, and the result is returned either way. -/
def settingInvoke {α ε : Type} (updatesValue : Bool) (name : String)
    (compiled : α → Except ε PyObj) (store : List (String × PyObj)) (a : α) :
    Except ε (PyObj × List (String × PyObj)) :=
  match compiled a with
  | Except.error e => Except.error e
  | Except.ok res =>
    Except.ok (res, if updatesValue then dictInsert store name res else store)

/-- SettingCall describes one successful Setting invocation as observed by the
store: the setting name, the execution result and the updates_value attribute. -/
structure SettingCall where
  name : String
  result : PyObj
  updatesValue : Bool
deriving DecidableEq, Repr

/-- applySettingCall models the store effect of the setting wrapper together
with the per-instance keying of CLI_Methods (src/class_cli/_cli_methods.py
lines 122-137): self._settings is a defaultdict keyed by instance, so a call on
instance i writes self._settings[i] only. -/
def applySettingCall {ι : Type} [DecidableEq ι] (stores : ι → List (String × PyObj))
    (i : ι) (c : SettingCall) : ι → List (String × PyObj) :=
  fun j =>
    if j = i then
      (if c.updatesValue then dictInsert (stores i) c.name c.result else stores i)
    else stores j

/-- applySettingCalls folds a sequence of Setting calls performed on one
instance over the per-instance stores. -/
def applySettingCalls {ι : Type} [DecidableEq ι] (stores : ι → List (String × PyObj))
    (i : ι) (calls : List SettingCall) : ι → List (String × PyObj) :=
  calls.foldl (fun st c => applySettingCall st i c) stores

/-- wordsAux models shlex.split for quote-free lines: maximal runs of
non-space characters, the first argument accumulating the current word
reversed. -/
def wordsAux (cur : List Char) : List Char → List String
  | [] => if cur = [] then [] else [String.mk cur.reverse]
  | c :: cs =>
    if c = ' ' then
      (if cur = [] then wordsAux [] cs else String.mk cur.reverse :: wordsAux [] cs)
    else wordsAux (c :: cur) cs

/-- helpKeys models CMD.HELP in src/_cli_prompt.py. -/
def helpKeys : List String := ["-h", "--help"]

/-- tokenizeSimpleLine models extract_details (src/_cli_prompt.py lines 74-100)
for quote-free lines with the cursor at the end: shlex.split of the line, plus
an empty trailing token when the character before the cursor is a space, help
flags filtered out. -/
def tokenizeSimpleLine (line : String) : List String :=
  let ws := wordsAux [] line.data
  let ws := if line.data ≠ [] ∧ line.data.getLast? = some ' ' then ws ++ [""] else ws
  ws.filter (fun t => ¬ helpKeys.contains t)

/-- statusTooManyFlag models the no-variadic arity branch of StatusBar._validate
(src/_cli_prompt.py lines 210-218): idx is the index of the current word in the
token list, discounted by one when the trailing token is the empty in-progress
token, and the error fires when it exceeds len(args)-1 where args includes
self; k is the number of fixed parameters excluding self. -/
def statusTooManyFlag (k : Nat) (tokens : List String) : Bool :=
  let idx := tokens.length - 1
  let idxTest := if tokens.getLast? = some "" then idx - 1 else idx
  decide (idxTest > k)

/-- statusValidateTooMany models StatusBar._validate (src/_cli_prompt.py lines
148-218) restricted to the branch where the first token resolves directly to a
method with k fixed parameters and no variadic forms: it returns true exactly
when the too-many-inputs ValidationError is raised.  The file-read and
settings-prefix branches are not involved for such lines. -/
def statusValidateTooMany (methodsArity : List (String × Nat)) (line : String) : Bool :=
  let input := tokenizeSimpleLine line
  match input with
  | [] => false
  | kw :: _ =>
    match dictLookup methodsArity kw with
    | some k => statusTooManyFlag k input
    | Option.none => false

/-! Theorems.  Each claim Ci of the specification is settled by one theorem
named after it; auxiliary lemmas come first. -/

theorem methodInvokeAux_all_ok {α ε ρ : Type} (execution : α → Except ε ρ) (a : α) :
    ∀ (validations : List (α → Except ε Unit)) (i : Nat),
      (∀ v ∈ validations, v a = Except.ok ()) →
      methodInvokeAux i validations execution a =
        ((List.range' i validations.length).map CallEvent.validationRun ++
          [CallEvent.executionRun], execution a)
  | [], i, _ => by simp [methodInvokeAux]
  | v :: rest, i, h => by
    have hv : v a = Except.ok () := h v (List.mem_cons_self _ _)
    have ih := methodInvokeAux_all_ok execution a rest (i + 1)
      (fun u hu => h u (List.mem_cons_of_mem _ hu))
    simp [methodInvokeAux, hv, ih, List.range'_succ]

theorem methodInvokeAux_first_error {α ε ρ : Type} (execution : α → Except ε ρ) (a : α)
    (v : α → Except ε Unit) (post : List (α → Except ε Unit)) (e : ε)
    (hv : v a = Except.error e) :
    ∀ (pre : List (α → Except ε Unit)) (i : Nat),
      (∀ u ∈ pre, u a = Except.ok ()) →
      methodInvokeAux i (pre ++ v :: post) execution a =
        ((List.range' i (pre.length + 1)).map CallEvent.validationRun, Except.error e)
  | [], i, _ => by simp [methodInvokeAux, hv, List.range'_succ]
  | u :: pre, i, h => by
    have hu : u a = Except.ok () := h u (List.mem_cons_self _ _)
    have ih := methodInvokeAux_first_error execution a v post e hv pre (i + 1)
      (fun w hw => h w (List.mem_cons_of_mem _ hw))
    simp [methodInvokeAux, hu, ih, List.range'_succ]

/-- C1: invoking a compiled command runs its registered validations in
registration order against the same arguments, before the execution; if some
validation raises, the invocation returns that same error unmodified and
neither any later validation nor the execution runs; if all validations pass,
the execution runs exactly once and its result is returned. -/
theorem c1_validations_then_execution {α ε ρ : Type}
    (validations : List (α → Except ε Unit)) (execution : α → Except ε ρ) (a : α) :
    ((∀ v ∈ validations, v a = Except.ok ()) →
      methodInvoke validations execution a =
        ((List.range validations.length).map CallEvent.validationRun ++
          [CallEvent.executionRun], execution a)) ∧
    (∀ (pre post : List (α → Except ε Unit)) (v : α → Except ε Unit) (e : ε),
      validations = pre ++ v :: post → (∀ u ∈ pre, u a = Except.ok ()) →
      v a = Except.error e →
      methodInvoke validations execution a =
        ((List.range (pre.length + 1)).map CallEvent.validationRun, Except.error e)) := by
  constructor
  · intro h
    rw [List.range_eq_range']
    exact methodInvokeAux_all_ok execution a validations 0 h
  · intro pre post v e hsplit hpre hv
    subst hsplit
    rw [List.range_eq_range']
    exact methodInvokeAux_first_error execution a v post e hv pre 0 hpre

/-- Witness for C1 at a concrete command: a passing validation followed by the
execution, and a failing first validation that suppresses a later validation
and the execution. -/
theorem c1_witness :
    (methodInvoke (α := Nat) (ε := String) [fun _ => Except.ok ()]
        (fun n => Except.ok (n + 1)) 3 =
      ([CallEvent.validationRun 0, CallEvent.executionRun], Except.ok 4)) ∧
    (methodInvoke (α := Nat) (ε := String) (ρ := Nat)
        [fun _ => Except.error "boom", fun _ => Except.ok ()]
        (fun n => Except.ok (n + 1)) 3 =
      ([CallEvent.validationRun 0], Except.error "boom")) := by
  constructor
  · have h := (c1_validations_then_execution (α := Nat) (ε := String)
      [fun _ => Except.ok ()] (fun n => Except.ok (n + 1)) 3).1 (by
        intro v hv
        simp only [List.mem_singleton] at hv
        subst hv
        rfl)
    simpa using h
  · have h := (c1_validations_then_execution (α := Nat) (ε := String) (ρ := Nat)
      [fun _ => Except.error "boom", fun _ => Except.ok ()]
      (fun n => Except.ok (n + 1)) 3).2 []
      [fun _ => Except.ok ()] (fun _ => Except.error "boom") "boom" rfl
      (by intro u hu; simp at hu) rfl
    simpa using h

theorem compareSpecAttr_ok_iff {β : Type} [DecidableEq β] (mtype mname attrName : String) :
    ∀ o1 o2 : Option (List β),
      compareSpecAttr mtype mname attrName o1 o2 = Except.ok () ↔ o1 = o2 := by
  intro o1 o2
  cases o1 with
  | none =>
    cases o2 with
    | none => simp [compareSpecAttr]
    | some l2 => simp [compareSpecAttr]
  | some l1 =>
    cases o2 with
    | none => simp [compareSpecAttr]
    | some l2 =>
      by_cases hlen : l1.length ≠ l2.length
      · have hne : l1 ≠ l2 := fun h => hlen (by rw [h])
        simp [compareSpecAttr, hlen, hne]
      · by_cases heq : l1 = l2
        · simp [compareSpecAttr, hlen, heq]
        · simp [compareSpecAttr, hlen, heq]

theorem compareSpecAttr_ok_or_initialization {β : Type} [DecidableEq β]
    (mtype mname attrName : String) (o1 o2 : Option (List β)) :
    compareSpecAttr mtype mname attrName o1 o2 = Except.ok () ∨
    ∃ msg, compareSpecAttr mtype mname attrName o1 o2 =
      Except.error (CliError.initialization msg) := by
  cases o1 <;> cases o2
  · simp [compareSpecAttr]
  · simp [compareSpecAttr]
  · simp [compareSpecAttr]
  · simp only [compareSpecAttr]
    split_ifs <;> simp

theorem exceptThen_ok_iff {ε : Type} (x y : Except ε Unit) :
    exceptThen x y = Except.ok () ↔ (x = Except.ok () ∧ y = Except.ok ()) := by
  cases x with
  | error e => simp [exceptThen]
  | ok u => cases u; simp [exceptThen]

theorem exceptThen_ok_or {x y : Except CliError Unit}
    (hx : x = Except.ok () ∨ ∃ msg, x = Except.error (CliError.initialization msg))
    (hy : y = Except.ok () ∨ ∃ msg, y = Except.error (CliError.initialization msg)) :
    exceptThen x y = Except.ok () ∨
    ∃ msg, exceptThen x y = Except.error (CliError.initialization msg) := by
  rcases hx with hx | ⟨m, hx⟩
  · subst hx
    simpa [exceptThen] using hy
  · subst hx
    exact Or.inr ⟨m, rfl⟩

theorem option_map_data_inj (o1 o2 : Option String) :
    o1.map String.data = o2.map String.data ↔ o1 = o2 := by
  cases o1 <;> cases o2 <;> simp
  exact ⟨fun h => String.ext h, fun h => by rw [h]⟩

theorem specCompare_ok_iff (mtype mname : String) (s1 s2 : ArgSpec) :
    specCompare mtype mname s1 s2 = Except.ok () ↔
      (s1.args = s2.args ∧ s1.defaults = s2.defaults ∧
       s1.annotations.map Prod.snd = s2.annotations.map Prod.snd ∧
       s1.varargs = s2.varargs ∧ s1.varkw = s2.varkw) := by
  simp only [specCompare, exceptThen_ok_iff, compareSpecAttr_ok_iff,
    option_map_data_inj, Option.some_inj]

theorem specCompare_ok_or_initialization (mtype mname : String) (s1 s2 : ArgSpec) :
    specCompare mtype mname s1 s2 = Except.ok () ∨
    ∃ msg, specCompare mtype mname s1 s2 = Except.error (CliError.initialization msg) := by
  unfold specCompare
  refine exceptThen_ok_or (compareSpecAttr_ok_or_initialization ..)
    (exceptThen_ok_or (compareSpecAttr_ok_or_initialization ..)
      (exceptThen_ok_or (compareSpecAttr_ok_or_initialization ..)
        (exceptThen_ok_or (compareSpecAttr_ok_or_initialization ..)
          (compareSpecAttr_ok_or_initialization ..))))

theorem exceptThen_ok_unit {ε : Type} (x : Except ε Unit) :
    exceptThen x (Except.ok ()) = x := by
  cases x with
  | error e => rfl
  | ok u => cases u; rfl

/-- specAnnotatesA is the getfullargspec of def oper(self, a: int, b), used to
exercise the annotation comparison. -/
def specAnnotatesA : ArgSpec :=
  ⟨["self", "a", "b"], Option.none, [("a", PyObj.str "int")], Option.none, Option.none⟩

/-- specAnnotatesB is the getfullargspec of def oper(self, a, b: int). -/
def specAnnotatesB : ArgSpec :=
  ⟨["self", "a", "b"], Option.none, [("b", PyObj.str "int")], Option.none, Option.none⟩

/-- specParamA is the getfullargspec of def oper(self, a). -/
def specParamA : ArgSpec :=
  ⟨["self", "a"], Option.none, [], Option.none, Option.none⟩

/-- specParamB is the getfullargspec of def oper(self, b). -/
def specParamB : ArgSpec :=
  ⟨["self", "b"], Option.none, [], Option.none, Option.none⟩

/-- C2 counterexample: an execution annotating parameter a and a validation
annotating parameter b with the same annotation value have different annotation
sets, yet the compile-time check accepts them, because the code compares only
the list of annotation values, not which parameter carries them. -/
theorem c2_counterexample :
    checkPreconditions "Operation" "oper" (some specAnnotatesA) [specAnnotatesB] =
      Except.ok () ∧
    specAnnotatesA.annotations ≠ specAnnotatesB.annotations := by
  exact ⟨rfl, by decide⟩

/-- C2 (amended): declaring the execution and the validation never raises; the
first compile for an instance raises InitializationException, symmetrically in
which side differs, whenever the two signatures differ in the positional
parameter-name list, the defaults tuple (including one side lacking defaults),
the ordered list of annotation values, the variadic-positional name, or the
variadic-keyword name (including one side declaring a variadic name the other
lacks).  A difference only in which parameters carry the annotations, with
equal annotation value lists, is not detected (see the counterexample). -/
theorem c2_binding_mismatch (mtype mname : String) (s1 s2 : ArgSpec)
    (hdiff : s1.args ≠ s2.args ∨ s1.defaults ≠ s2.defaults ∨
      s1.annotations.map Prod.snd ≠ s2.annotations.map Prod.snd ∨
      s1.varargs ≠ s2.varargs ∨ s1.varkw ≠ s2.varkw) :
    declareMethod mname mtype s1 s2 =
      Except.ok { name := mname, execution := some s1, mtype := mtype,
                  validations := [s2] } ∧
    (∃ msg, checkPreconditions mtype mname (some s1) [s2] =
      Except.error (CliError.initialization msg)) ∧
    (∃ msg, checkPreconditions mtype mname (some s2) [s1] =
      Except.error (CliError.initialization msg)) := by
  have hloop : ∀ u v : ArgSpec, checkPreconditions mtype mname (some u) [v] =
      specCompare mtype mname u v := by
    intro u v
    show checkValidationSpecs mtype mname u [v] = _
    show exceptThen (specCompare mtype mname u v) (checkValidationSpecs mtype mname u []) = _
    exact exceptThen_ok_unit _
  have hnotok : ∀ u v : ArgSpec,
      (u.args ≠ v.args ∨ u.defaults ≠ v.defaults ∨
        u.annotations.map Prod.snd ≠ v.annotations.map Prod.snd ∨
        u.varargs ≠ v.varargs ∨ u.varkw ≠ v.varkw) →
      ∃ msg, specCompare mtype mname u v = Except.error (CliError.initialization msg) := by
    intro u v hd
    rcases specCompare_ok_or_initialization mtype mname u v with hok | herr
    · rcases (specCompare_ok_iff mtype mname u v).1 hok with ⟨h1, h2, h3, h4, h5⟩
      rcases hd with h | h | h | h | h <;> exact absurd (by assumption) h
    · exact herr
  refine ⟨rfl, ?_, ?_⟩
  · rw [hloop]
    exact hnotok s1 s2 hdiff
  · rw [hloop]
    refine hnotok s2 s1 ?_
    rcases hdiff with h | h | h | h | h
    · exact Or.inl (Ne.symm h)
    · exact Or.inr (Or.inl (Ne.symm h))
    · exact Or.inr (Or.inr (Or.inl (Ne.symm h)))
    · exact Or.inr (Or.inr (Or.inr (Or.inl (Ne.symm h))))
    · exact Or.inr (Or.inr (Or.inr (Or.inr (Ne.symm h))))

/-- Witness for C2 at a concrete mismatch: the validation names its parameter b
where the execution names it a; declaration succeeds and both compile orders
raise InitializationException. -/
theorem c2_witness :
    declareMethod "oper" "Operation" specParamA specParamB =
      Except.ok ⟨"oper", some specParamA, "Operation", [specParamB]⟩ ∧
    (∃ msg, checkPreconditions "Operation" "oper" (some specParamA) [specParamB] =
      Except.error (CliError.initialization msg)) ∧
    (∃ msg, checkPreconditions "Operation" "oper" (some specParamB) [specParamA] =
      Except.error (CliError.initialization msg)) :=
  c2_binding_mismatch "Operation" "oper" specParamA specParamB (Or.inl (by decide))

theorem parseRequiredPositionals_exact : ∀ ts : List String,
    parseRequiredPositionals ts.length ts = Except.ok ts
  | [] => rfl
  | t :: ts => by
    simp [parseRequiredPositionals, parseRequiredPositionals_exact ts]

theorem parseRequiredPositionals_missing : ∀ (k : Nat) (ts : List String),
    ts.length < k →
    parseRequiredPositionals k ts =
      Except.error (CliError.input "the following arguments are required")
  | 0, ts, h => absurd h (Nat.not_lt_zero _)
  | k + 1, [], _ => rfl
  | k + 1, t :: ts, h => by
    have ih := parseRequiredPositionals_missing k ts (Nat.lt_of_succ_lt_succ h)
    simp [parseRequiredPositionals, ih]

theorem parseRequiredPositionals_surplus : ∀ (k : Nat) (ts : List String),
    k < ts.length →
    parseRequiredPositionals k ts = Except.error (CliError.input "unrecognized arguments")
  | 0, [], h => absurd h (Nat.not_lt_zero _)
  | 0, t :: ts, _ => rfl
  | k + 1, [], h => by simp at h
  | k + 1, t :: ts, h => by
    have ih := parseRequiredPositionals_surplus k ts (Nat.lt_of_succ_lt_succ h)
    simp [parseRequiredPositionals, ih]

set_option linter.unusedVariables false in
/-- C3: for a command with k required positional parameters, no defaults and no
variadic forms, resolving exactly k plain argument tokens succeeds, while k-1
or k+1 tokens make the parser fail, surfaced as an InputException.  The
hypothesis restricts tokens to plain values: tokens beginning with a dash are
handled by the flag machinery of the external argparse collaborator. -/
theorem c3_arity (k : Nat) (tokens : List String)
    (hplain : ∀ t ∈ tokens, t.data.head? ≠ some '-') :
    (tokens.length = k → parseRequiredPositionals k tokens = Except.ok tokens) ∧
    (tokens.length + 1 = k →
      ∃ msg, parseRequiredPositionals k tokens = Except.error (CliError.input msg)) ∧
    (tokens.length = k + 1 →
      ∃ msg, parseRequiredPositionals k tokens = Except.error (CliError.input msg)) := by
  refine ⟨?_, ?_, ?_⟩
  · intro hk
    subst hk
    exact parseRequiredPositionals_exact tokens
  · intro hk
    refine ⟨"the following arguments are required", ?_⟩
    exact parseRequiredPositionals_missing k tokens (by omega)
  · intro hk
    refine ⟨"unrecognized arguments", ?_⟩
    exact parseRequiredPositionals_surplus k tokens (by omega)

/-- Witness for C3 with k = 2: two tokens succeed, one token and three tokens
raise input errors. -/
theorem c3_witness :
    (parseRequiredPositionals 2 ["0", "1"] = Except.ok ["0", "1"]) ∧
    (∃ msg, parseRequiredPositionals 2 ["0"] = Except.error (CliError.input msg)) ∧
    (∃ msg, parseRequiredPositionals 2 ["0", "1", "2"] =
      Except.error (CliError.input msg)) := by
  refine ⟨?_, ?_, ?_⟩
  · exact (c3_arity 2 ["0", "1"] (by decide)).1 (by decide)
  · exact (c3_arity 2 ["0"] (by decide)).2.1 (by decide)
  · exact (c3_arity 2 ["0", "1", "2"] (by decide)).2.2 (by decide)

theorem methodInvokeAux_ok_execution {α ε ρ : Type} (execution : α → Except ε ρ)
    (a : α) (r : ρ) :
    ∀ (validations : List (α → Except ε Unit)) (i : Nat),
      (methodInvokeAux i validations execution a).2 = Except.ok r →
      execution a = Except.ok r
  | [], _, h => h
  | v :: rest, i, h => by
    cases hv : v a with
    | error e => simp [methodInvokeAux, hv] at h
    | ok u =>
      have h2 : (methodInvokeAux (i + 1) rest execution a).2 = Except.ok r := by
        simpa [methodInvokeAux, hv] using h
      exact methodInvokeAux_ok_execution execution a r rest (i + 1) h2

/-- C7: a Setting whose updates_value attribute is false returns the result of
its execution on a successful call, and the settings store after the call
equals the store from before the call. -/
theorem c7_no_update {α ε : Type} (validations : List (α → Except ε Unit))
    (execution : α → Except ε PyObj) (name : String)
    (store : List (String × PyObj)) (a : α) (r : PyObj)
    (hok : runMethod validations execution a = Except.ok r) :
    execution a = Except.ok r ∧
    settingInvoke false name (runMethod validations execution) store a =
      Except.ok (r, store) := by
  refine ⟨methodInvokeAux_ok_execution execution a r validations 0 hok, ?_⟩
  simp [settingInvoke, hok]

/-- Witness for C7: a concrete Setting with one passing validation and
updates_value false returns the execution result and keeps the store intact. -/
theorem c7_witness :
    settingInvoke (α := Nat) (ε := String) false "level"
      (runMethod [fun _ => Except.ok ()] (fun n => Except.ok (PyObj.int n)))
      [("level", PyObj.int 0)] 7 =
      Except.ok (PyObj.int 7, [("level", PyObj.int 0)]) :=
  (c7_no_update [fun _ => Except.ok ()] (fun n => Except.ok (PyObj.int n))
    "level" [("level", PyObj.int 0)] 7 (PyObj.int 7) rfl).2

/-- C8: a sequence of Setting calls performed on instance i never changes the
store of a different instance j: the per-instance stores are disjoint. -/
theorem c8_instance_isolation {ι : Type} [DecidableEq ι] (i j : ι) (hne : j ≠ i) :
    ∀ (calls : List SettingCall) (stores : ι → List (String × PyObj)),
      applySettingCalls stores i calls j = stores j
  | [], stores => rfl
  | c :: calls, stores => by
    have ih := c8_instance_isolation i j hne calls (applySettingCall stores i c)
    have hstep : applySettingCalls stores i (c :: calls) =
        applySettingCalls (applySettingCall stores i c) i calls := rfl
    rw [hstep, ih]
    simp [applySettingCall, hne]

/-- Witness for C8: instance 0 updates setting x, instance 1 still holds its
seeded store. -/
theorem c8_witness :
    applySettingCalls (ι := Nat) (fun _ => [("x", PyObj.pyNone)]) 0
      [⟨"x", PyObj.str "v", true⟩, ⟨"x", PyObj.str "w", true⟩] 1 =
      [("x", PyObj.pyNone)] :=
  c8_instance_isolation 0 1 (by decide)
    [⟨"x", PyObj.str "v", true⟩, ⟨"x", PyObj.str "w", true⟩] (fun _ => [("x", PyObj.pyNone)])

theorem contains_of_mem_map {κ : Type} (f : κ → String) (l : List κ) (key : String)
    (h : ∃ o ∈ l, f o = key) : (l.map f).contains key = true := by
  rcases h with ⟨o, ho, hfo⟩
  have hm : key ∈ l.map f := List.mem_map.2 ⟨o, ho, hfo⟩
  simpa [List.contains] using hm

theorem mem_map_of_contains {κ : Type} (f : κ → String) (l : List κ) (key : String)
    (h : (l.map f).contains key = true) : ∃ o ∈ l, f o = key := by
  have hm : key ∈ l.map f := by simpa [List.contains] using h
  exact List.mem_map.1 hm

theorem find?_beq_exists {κ : Type} (f : κ → String) (l : List κ) (key : String)
    (h : ∃ o ∈ l, f o = key) :
    ∃ o, l.find? (fun x => f x == key) = some o ∧ o ∈ l ∧ f o = key := by
  have hsome : (l.find? (fun x => f x == key)).isSome := by
    rw [List.find?_isSome]
    rcases h with ⟨o, ho, hfo⟩
    exact ⟨o, ho, by simp [hfo]⟩
  rcases Option.isSome_iff_exists.1 hsome with ⟨o, hfind⟩
  refine ⟨o, hfind, List.mem_of_find?_eq_some hfind, ?_⟩
  have hp := List.find?_some hfind
  simpa using hp

/-- C4: for the mapping-choice annotation with keys 11, 12, 22 each mapped to
the empty string, coercing the token 11 succeeds with the value mapped to key
11 and coercing the token 13 raises the not-a-valid-option TypeError; in
general a mapping-choice coercion succeeds exactly when the token text equals
the textual form of some member key, and then yields the mapped value of a key
with that textual form. -/
theorem c4_mapping_choice :
    (dictCall (fun n : Int => toString n) [(11, ""), (12, ""), (22, "")] "11" =
      Except.ok "") ∧
    (dictCall (fun n : Int => toString n) [(11, ""), (12, ""), (22, "")] "13" =
      Except.error "\x2713\x27 is not a valid option") ∧
    (∀ (κ α : Type) (strFn : κ → String) (options : List (κ × α)) (key : String),
      ((∃ v, dictCall strFn options key = Except.ok v) ↔
        ∃ o ∈ options, strFn o.1 = key) ∧
      (∀ v, dictCall strFn options key = Except.ok v →
        ∃ o ∈ options, strFn o.1 = key ∧ o.2 = v)) := by
  refine ⟨rfl, rfl, ?_⟩
  intro κ α strFn options key
  have hforward : ∀ v, dictCall strFn options key = Except.ok v →
      ∃ o ∈ options, strFn o.1 = key ∧ o.2 = v := by
    intro v hv
    unfold dictCall at hv
    by_cases hc : (options.map (fun o => strFn o.1)).contains key = true
    · rw [if_pos hc] at hv
      cases hfind : dictFind strFn options key with
      | none => rw [hfind] at hv; simp at hv
      | some o =>
        rw [hfind] at hv
        simp only [Except.ok.injEq] at hv
        have hfind2 : options.find? (fun x => strFn x.1 == key) = some o := hfind
        have ho := List.mem_of_find?_eq_some hfind2
        have hfo : strFn o.1 = key := by simpa using List.find?_some hfind2
        exact ⟨o, ho, hfo, hv⟩
    · rw [if_neg hc] at hv
      simp at hv
  constructor
  · constructor
    · rintro ⟨v, hv⟩
      rcases hforward v hv with ⟨o, ho, hfo, _⟩
      exact ⟨o, ho, hfo⟩
    · intro h
      have hc := contains_of_mem_map (fun o => strFn o.1) options key h
      rcases find?_beq_exists (fun o => strFn o.1) options key h with ⟨o, hfind, ho, hfo⟩
      refine ⟨o.2, ?_⟩
      unfold dictCall
      rw [if_pos hc]
      have hfind2 : dictFind strFn options key = some o := hfind
      rw [hfind2]
  · exact hforward

/-- Witness for C4 exercising the general equivalence at the concrete mapping:
the token 11 is accepted because some member key has textual form 11. -/
theorem c4_witness :
    (∃ v, dictCall (fun n : Int => toString n) [(11, ""), (12, ""), (22, "")] "11" =
      Except.ok v) ↔
    (∃ o ∈ ([(11, ""), (12, ""), (22, "")] : List (Int × String)), toString o.1 = "11") :=
  (c4_mapping_choice.2.2 Int String (fun n => toString n)
    [(11, ""), (12, ""), (22, "")] "11").1

/-- C10: every completion candidate of a choice annotation is accepted by the
annotation coercion: for a sequence the coercion returns a member whose text
equals the candidate, for a mapping it returns the mapped value of such a
member. -/
theorem c10_completion_sound :
    (∀ (κ : Type) (strFn : κ → String) (options : List κ) (key c : String),
      c ∈ iterComplete strFn options key →
      ∃ o, iterCall strFn options c = Except.ok (some o) ∧ o ∈ options ∧ strFn o = c) ∧
    (∀ (κ α : Type) (strFn : κ → String) (options : List (κ × α)) (key c : String),
      c ∈ dictComplete strFn options key →
      ∃ o, dictCall strFn options c = Except.ok o.2 ∧ o ∈ options ∧ strFn o.1 = c) := by
  constructor
  · intro κ strFn options key c hc
    have hex : ∃ o ∈ options, strFn o = c := by
      rcases List.mem_map.1 hc with ⟨o, ho, hoc⟩
      exact ⟨o, (List.mem_filter.1 ho).1, hoc⟩
    have hcont := contains_of_mem_map strFn options c hex
    rcases find?_beq_exists strFn options c hex with ⟨o, hfind, ho, hfo⟩
    refine ⟨o, ?_, ho, hfo⟩
    unfold iterCall
    rw [if_pos hcont]
    have hfind2 : iterFind strFn options c = some o := hfind
    rw [hfind2]
  · intro κ α strFn options key c hc
    have hex : ∃ o ∈ options, strFn o.1 = c := by
      rcases List.mem_map.1 hc with ⟨o, ho, hoc⟩
      exact ⟨o, (List.mem_filter.1 ho).1, hoc⟩
    have hcont := contains_of_mem_map (fun o => strFn o.1) options c hex
    rcases find?_beq_exists (fun o => strFn o.1) options c hex with ⟨o, hfind, ho, hfo⟩
    refine ⟨o, ?_, ho, hfo⟩
    unfold dictCall
    rw [if_pos hcont]
    have hfind2 : dictFind strFn options c = some o := hfind
    rw [hfind2]

/-- Witness for C10: the candidate 11 completed from prefix 1 over the sequence
11, 12, 22 coerces back to the member 11. -/
theorem c10_witness :
    ∃ o, iterCall (fun n : Int => toString n) [11, 12, 22] "11" = Except.ok (some o) ∧
      o ∈ ([11, 12, 22] : List Int) ∧ toString o = "11" :=
  c10_completion_sound.1 Int (fun n => toString n) [11, 12, 22] "1" "11" (by decide)

theorem splitEqChars_ne_nil (sep : Char) : ∀ cs : List Char, splitEqChars sep cs ≠ []
  | [] => by simp [splitEqChars]
  | c :: cs => by
    unfold splitEqChars
    by_cases hc : c = sep
    · simp [hc]
    · rw [if_neg hc]
      cases h : splitEqChars sep cs <;> simp

theorem splitEqChars_singleton (sep : Char) : ∀ (cs g : List Char),
    splitEqChars sep cs = [g] → g = cs
  | [], g, h => by
    simp only [splitEqChars, List.cons.injEq] at h
    exact h.1.symm
  | c :: cs, g, h => by
    unfold splitEqChars at h
    by_cases hc : c = sep
    · rw [if_pos hc] at h
      simp only [List.cons.injEq] at h
      exact absurd h.2 (splitEqChars_ne_nil sep cs)
    · rw [if_neg hc] at h
      cases hsp : splitEqChars sep cs with
      | nil => exact absurd hsp (splitEqChars_ne_nil sep cs)
      | cons g0 gs =>
        rw [hsp] at h
        simp only [List.cons.injEq] at h
        rcases h with ⟨hg, hgs⟩
        subst hgs
        have hg0 : g0 = cs := splitEqChars_singleton sep cs g0 hsp
        rw [← hg, hg0]

theorem pySplitEq_singleton (s x : String) (h : pySplitEq s = [x]) : x = s := by
  unfold pySplitEq at h
  cases hsp : splitEqChars '=' s.data with
  | nil => exact absurd hsp (splitEqChars_ne_nil _ _)
  | cons g gs =>
    rw [hsp] at h
    simp only [List.map_cons, List.cons.injEq, List.map_eq_nil_iff] at h
    rcases h with ⟨hx, hgs⟩
    subst hgs
    have hg : g = s.data := splitEqChars_singleton _ _ _ hsp
    rw [← hx, hg]

theorem filterMap_eq_filter_of {α : Type} (g : α → Option α) (p : α → Bool) :
    ∀ l : List α, (∀ t ∈ l, g t = if p t then some t else Option.none) →
      l.filterMap g = l.filter p
  | [], _ => rfl
  | t :: l, h => by
    have ht := h t (List.mem_cons_self _ _)
    have ih := filterMap_eq_filter_of g p l (fun u hu => h u (List.mem_cons_of_mem _ hu))
    by_cases hp : p t
    · simp [List.filterMap_cons, List.filter_cons, ht, hp, ih]
    · simp [List.filterMap_cons, List.filter_cons, ht, hp, ih]

theorem pySplitEq_head_cases (t : String) :
    (match pySplitEq t with | [x] => some x | _ => Option.none) =
      (if (pySplitEq t).length == 1 then some t else Option.none) := by
  cases hsp : pySplitEq t with
  | nil => simp
  | cons x xs =>
    cases xs with
    | nil =>
      have hx := pySplitEq_singleton t x hsp
      subst hx
      simp
    | cons y ys => simp

theorem dictLookup_dictInsert {β : Type} : ∀ (d : List (String × β)) (k0 k : String) (v : β),
    dictLookup (dictInsert d k0 v) k = if k0 = k then some v else dictLookup d k
  | [], k0, k, v => by
    by_cases h : k0 = k <;> simp [dictInsert, dictLookup, h]
  | p :: d, k0, k, v => by
    have ih := dictLookup_dictInsert d k0 k v
    by_cases h1 : p.1 = k0
    · by_cases h2 : k0 = k
      · subst h2
        simp [dictInsert, dictLookup, h1]
      · simp [dictInsert, dictLookup, h1, h2]
    · by_cases h2 : k0 = k
      · subst h2
        simp [dictInsert, dictLookup, h1, ih]
      · have h2s : ¬k = k0 := fun hh => h2 hh.symm
        by_cases h3 : p.1 = k
        · simp [dictInsert, dictLookup, h1, h2, h2s, h3, ih]
        · simp [dictInsert, dictLookup, h1, h2, h2s, h3, ih]

theorem dictLookup_pyDict {β : Type} (ps : List (String × β)) (k : String) :
    dictLookup (pyDict ps) k = ((ps.filter (fun p => p.1 == k)).getLast?).map Prod.snd := by
  induction ps using List.reverseRecOn with
  | nil => rfl
  | append_singleton ps p ih =>
    have hfold : pyDict (ps ++ [p]) = dictInsert (pyDict ps) p.1 p.2 := by
      simp [pyDict, List.foldl_append]
    rw [hfold, dictLookup_dictInsert, List.filter_append]
    by_cases hp : p.1 = k
    · simp [List.filter_cons, hp, List.getLast?_concat]
    · simp [List.filter_cons, hp, ih]

theorem nodup_key_filter_length {α : Type} (f : α → String) (k : String) :
    ∀ l : List α, (l.map f).Nodup → (l.filter (fun x => f x == k)).length ≤ 1
  | [], _ => by simp
  | x :: l, h => by
    simp only [List.map_cons, List.nodup_cons] at h
    rcases h with ⟨hx, hl⟩
    by_cases hfx : f x = k
    · have hempty : l.filter (fun y => f y == k) = [] := by
        rw [List.filter_eq_nil_iff]
        intro y hy
        simp only [beq_iff_eq]
        intro hyk
        exact hx (List.mem_map.2 ⟨y, hy, by rw [hyk, hfx]⟩)
      simp [List.filter_cons, hfx, hempty]
    · have ih := nodup_key_filter_length f k l hl
      simpa [List.filter_cons, hfx] using ih

theorem perm_eq_of_length_le_one {α : Type} {l1 l2 : List α} (h : l1.Perm l2)
    (hl : l1.length ≤ 1) : l1 = l2 := by
  cases l1 with
  | nil => exact (List.perm_nil.1 h.symm).symm
  | cons a l =>
    cases l with
    | nil => exact (List.perm_singleton.1 h.symm).symm
    | cons b l => simp at hl

theorem format_extra_arguments_spec (tokens : List String) :
    (format_extra_arguments (some tokens) (some [])).1 =
      (tokens.filter (fun t => t ≠ "")).filter (fun t => (pySplitEq t).length == 1) ∧
    (∀ k, dictLookup (format_extra_arguments (some tokens) (some [])).2 k =
      ((((tokens.filter (fun t => t ≠ "")).filterMap
          (fun t => match pySplitEq t with | [k0, v] => some (k0, v) | _ => Option.none)).filter
        (fun p => p.1 == k)).getLast?).map Prod.snd) := by
  have hfilter2 : (tokens.filter (fun v => v ≠ "")).filter (fun e => e ≠ "") =
      tokens.filter (fun v => v ≠ "") := by
    rw [List.filter_eq_self]
    intro a ha
    exact (List.mem_filter.1 ha).2
  have hfea : format_extra_arguments (some tokens) (some []) =
      (((tokens.filter (fun v => v ≠ "")).map pySplitEq).filterMap
          (fun e => match e with | [x] => some x | _ => Option.none),
       pyDict (((tokens.filter (fun v => v ≠ "")).map pySplitEq).filterMap
          (fun e => match e with | [k0, v] => some (k0, v) | _ => Option.none))) := by
    simp only [format_extra_arguments, List.append_nil, hfilter2]
  have hfst : (format_extra_arguments (some tokens) (some [])).1 =
      ((tokens.filter (fun v => v ≠ "")).map pySplitEq).filterMap
        (fun e => match e with | [x] => some x | _ => Option.none) := by
    rw [hfea]
  have hsnd : (format_extra_arguments (some tokens) (some [])).2 =
      pyDict (((tokens.filter (fun v => v ≠ "")).map pySplitEq).filterMap
        (fun e => match e with | [k0, v] => some (k0, v) | _ => Option.none)) := by
    rw [hfea]
  constructor
  · rw [hfst, List.filterMap_map]
    exact filterMap_eq_filter_of _ _ _ (fun t _ => pySplitEq_head_cases t)
  · intro k
    rw [hsnd, List.filterMap_map, dictLookup_pyDict]
    rfl

/-- C6 counterexample: the token a=b=c has a non-empty key and a value that
contains an equals sign, so the claim classifies it as a keyword token, yet the
code drops it from both buckets; the token =v does not match the claimed
key-value pattern, so the claim classifies it as positional, yet the code makes
it a keyword entry with empty key. -/
theorem c6_counterexample :
    format_extra_arguments (some ["a=b=c"]) (some []) = ([], []) ∧
    format_extra_arguments (some ["=v"]) (some []) = ([], [("", "v")]) :=
  ⟨rfl, rfl⟩

/-- C6 (amended): a raw token routed to the variadic buckets is classified by
splitting it on every equals sign: a non-empty token with no equals sign is
positional, kept in order of appearance; a token splitting into exactly two
parts becomes a keyword entry (the key may be empty, the value cannot contain
an equals sign) with the last occurrence of a duplicate key winning; a token
with two or more equals signs, and an empty token, reach neither bucket. -/
theorem c6_classification (tokens : List String) :
    (format_extra_arguments (some tokens) (some [])).1 =
      (tokens.filter (fun t => t ≠ "")).filter (fun t => (pySplitEq t).length == 1) ∧
    (∀ k, dictLookup (format_extra_arguments (some tokens) (some [])).2 k =
      ((((tokens.filter (fun t => t ≠ "")).filterMap
          (fun t => match pySplitEq t with | [k0, v] => some (k0, v) | _ => Option.none)).filter
        (fun p => p.1 == k)).getLast?).map Prod.snd) :=
  format_extra_arguments_spec tokens

/-- C5: the token list a=1 a b b=2 c c=3 routed to a command declaring both
variadic buckets and no fixed parameters binds the positional list a, b, c and
the keyword mapping a to 1, b to 2, c to 3; every interleaving of those six
tokens that keeps the positional tokens in the same relative order produces the
same bindings. -/
theorem c5_interleaving (tokens : List String)
    (hperm : tokens.Perm ["a=1", "a", "b", "b=2", "c", "c=3"])
    (hpos : tokens.filter (fun t => (pySplitEq t).length == 1) = ["a", "b", "c"]) :
    (format_extra_arguments (some tokens) (some [])).1 = ["a", "b", "c"] ∧
    (∀ k, dictLookup (format_extra_arguments (some tokens) (some [])).2 k =
      dictLookup [("a", "1"), ("b", "2"), ("c", "3")] k) := by
  have hmem : ∀ t ∈ tokens, t ∈ (["a=1", "a", "b", "b=2", "c", "c=3"] : List String) :=
    fun t ht => hperm.mem_iff.1 ht
  have hts : tokens.filter (fun t => t ≠ "") = tokens := by
    rw [List.filter_eq_self]
    intro a ha
    have h6 := hmem a ha
    simp only [List.mem_cons, List.not_mem_nil, or_false] at h6
    rcases h6 with rfl | rfl | rfl | rfl | rfl | rfl <;> decide
  have hspec := format_extra_arguments_spec tokens
  constructor
  · rw [hspec.1, hts, hpos]
  · intro k
    have hlook := hspec.2 k
    rw [hts] at hlook
    rw [hlook]
    have hpairs : (tokens.filterMap
        (fun t => match pySplitEq t with | [k0, v] => some (k0, v) | _ => Option.none)).Perm
        [("a", "1"), ("b", "2"), ("c", "3")] := by
      have h := hperm.filterMap
        (fun t => match pySplitEq t with | [k0, v] => some (k0, v) | _ => Option.none)
      simpa using h
    have hkeys : ((tokens.filterMap
        (fun t => match pySplitEq t with | [k0, v] => some (k0, v) | _ => Option.none)).map
        Prod.fst).Nodup := by
      have h := hpairs.map Prod.fst
      exact (h.nodup_iff).2 (by decide)
    have hlen := nodup_key_filter_length Prod.fst k _ hkeys
    have hfeq := perm_eq_of_length_le_one (hpairs.filter (fun p => p.1 == k)) hlen
    rw [hfeq, ← dictLookup_pyDict]
    rfl

/-- Witness for C5 at the literal token order from the specification. -/
theorem c5_witness :
    (format_extra_arguments (some ["a=1", "a", "b", "b=2", "c", "c=3"]) (some [])).1 =
      ["a", "b", "c"] ∧
    (∀ k, dictLookup
        (format_extra_arguments (some ["a=1", "a", "b", "b=2", "c", "c=3"]) (some [])).2 k =
      dictLookup [("a", "1"), ("b", "2"), ("c", "3")] k) :=
  c5_interleaving ["a=1", "a", "b", "b=2", "c", "c=3"] (List.Perm.refl _) rfl

/-- C9 counterexample: for a command with one fixed parameter and no variadic
form, the partial line oper 0 0 without a trailing separator already flags
too many inputs, where the claim says it must not. -/
theorem c9_counterexample :
    statusValidateTooMany [("oper", 1)] "oper 0 0" = true :=
  rfl

/-- C9 (amended): for a command with one fixed parameter and no variadic form,
the live validator does not flag too many inputs on oper 0, nor on oper 0 with
a trailing separator, because the empty in-progress token is discounted; it
flags both oper 0 0 and oper 0 0 with a trailing separator, firing as soon as a
committed non-empty token overflows the parameter count rather than at the
following separator. -/
theorem c9_boundary :
    statusValidateTooMany [("oper", 1)] "oper 0" = false ∧
    statusValidateTooMany [("oper", 1)] "oper 0 " = false ∧
    statusValidateTooMany [("oper", 1)] "oper 0 0" = true ∧
    statusValidateTooMany [("oper", 1)] "oper 0 0 " = true :=
  ⟨rfl, rfl, rfl, rfl⟩
